import Mathlib

/-!
Verification of the local-first sync engine (`src/hooks/useSync.ts`,
`src/hooks/useOnlineData.ts`).

Shallow embedding conventions:
* Timestamps are `Int` milliseconds; `new Date(x || 0).getTime()` on a
  possibly-missing `updated_at` is modelled by `timeOf : Option Int → Int`
  (missing ⇒ epoch 0).
* Record fields the algorithms never inspect are collapsed into a single
  opaque `payload : String` field; the algorithms move records around by
  spread, so this is faithful.
* A JavaScript object's possibly-absent key (e.g. the synthetic foreign key
  `client_id` on a case that never went through `flattenData`) is modelled
  as an `Option` field, `none` meaning the key is absent.
* A JS `Map` built by iterating a list and `set`ting entries keeps the
  position of the first write to a key and the value of the last write;
  `Array.from(map.values())` yields insertion order.  This is modelled by
  the association-list update `setA` below.  `map.get(k)` on a map built
  from a record list is modelled by `lookupLast` (last write wins).
  Grouping a list into a `Map<string, T[]>` by pushing in iteration order
  and then reading one key is modelled by `List.filter` on that key
  (relative order within a group is preserved, and a missing key yields
  `[]` just as `map.get(k) || []` does).
-/

namespace Sync

/-- `new Date(x || 0).getTime()` for a possibly missing `updated_at`. -/
def timeOf (t : Option Int) : Int := t.getD 0

/-- A session record (`Session`); `stage_id` is the synthetic foreign key
added by `flattenData` (absent on fresh nested data). -/
structure Session where
  id : String
  stage_id : Option String
  updated_at : Option Int
  payload : String
  deriving DecidableEq, Repr

/-- A nested stage (`Stage`): carries its `sessions`; `case_id` is the
synthetic foreign key (absent until the record has been flattened once). -/
structure Stage where
  id : String
  case_id : Option String
  updated_at : Option Int
  payload : String
  sessions : List Session
  deriving DecidableEq, Repr

/-- A flat stage row: `flattenData` strips `sessions` and definitely sets
`case_id`. -/
structure FlatStage where
  id : String
  case_id : String
  updated_at : Option Int
  payload : String
  deriving DecidableEq, Repr

/-- A nested case (`Case`). -/
structure Case where
  id : String
  client_id : Option String
  updated_at : Option Int
  payload : String
  stages : List Stage
  deriving DecidableEq, Repr

/-- A flat case row: `stages` stripped, `client_id` set. -/
structure FlatCase where
  id : String
  client_id : String
  updated_at : Option Int
  payload : String
  deriving DecidableEq, Repr

/-- A nested client (`Client`). -/
structure Client where
  id : String
  updated_at : Option Int
  payload : String
  cases : List Case
  deriving DecidableEq, Repr

/-- A flat client row: `cases` stripped. -/
structure FlatClient where
  id : String
  updated_at : Option Int
  payload : String
  deriving DecidableEq, Repr

/-- An invoice line item (`InvoiceItem`); `invoice_id` is the synthetic
foreign key added by `flattenData`. -/
structure InvoiceItem where
  id : String
  invoice_id : Option String
  updated_at : Option Int
  payload : String
  deriving DecidableEq, Repr

/-- A nested invoice (`Invoice`).  The application addresses the owning
client through the camel-case `clientId` field; the snake-case `client_id`
key is never written by any code path (local creation uses `clientId`, and
`transformRemoteToLocal` renames the remote column `client_id` back to
`clientId`), so it is `none` throughout the real pipeline — it is kept in
the model because `applyDeletionsToLocal` reads it. -/
structure Invoice where
  id : String
  clientId : String
  client_id : Option String
  updated_at : Option Int
  payload : String
  items : List InvoiceItem
  deriving DecidableEq, Repr

/-- A flat invoice row: `items` stripped; all other fields spread through. -/
structure FlatInvoice where
  id : String
  clientId : String
  client_id : Option String
  updated_at : Option Int
  payload : String
  deriving DecidableEq, Repr

/-- `CaseDocument.localState`. -/
inductive DocState where
  | synced
  | pending_upload
  | pending_download
  | downloading
  | error
  deriving DecidableEq, Repr

/-- A case document (`CaseDocument`); `isLocalOnly` models the optional
boolean flag (absent ⇒ `false`, matching its truthiness use). -/
structure CaseDocument where
  id : String
  caseId : String
  localState : DocState
  isLocalOnly : Bool
  updated_at : Option Int
  payload : String
  deriving DecidableEq, Repr

/-- An accounting entry (`AccountingEntry`); `clientId` is optional — the
cascade keeps entries that reference no client at all. -/
structure AccountingEntry where
  id : String
  clientId : Option String
  updated_at : Option Int
  payload : String
  deriving DecidableEq, Repr

/-- An assistant row; `flattenData` produces `{ name }` with no
`updated_at` (modelled as `none`). -/
structure Assistant where
  name : String
  updated_at : Option Int
  deriving DecidableEq, Repr

/-- A generic independent record (admin task / appointment / profile /
site-finance row): the engine only reads `id` and `updated_at` on these. -/
structure GenRec where
  id : String
  updated_at : Option Int
  payload : String
  deriving DecidableEq, Repr

/-- The nested domain graph (`AppData`). -/
structure AppData where
  clients : List Client
  adminTasks : List GenRec
  appointments : List GenRec
  accountingEntries : List AccountingEntry
  invoices : List Invoice
  assistants : List String
  documents : List CaseDocument
  profiles : List GenRec
  siteFinances : List GenRec
  deriving DecidableEq, Repr

/-- The flat per-table representation (`FlatData`). -/
structure FlatData where
  clients : List FlatClient
  cases : List FlatCase
  stages : List FlatStage
  sessions : List Session
  admin_tasks : List GenRec
  appointments : List GenRec
  accounting_entries : List AccountingEntry
  assistants : List Assistant
  invoices : List FlatInvoice
  invoice_items : List InvoiceItem
  case_documents : List CaseDocument
  profiles : List GenRec
  site_finances : List GenRec
  deriving DecidableEq, Repr

/-! ## Flattener (`flattenData`, useSync.ts lines 24–45) -/

/-- `flattenData`: walks the nested graph, tagging each child with its
parent's id (`{ ...child, parent_id: parent.id }`) and stripping the
children lists from the parents.  The source first builds tagged nested
records and then strips the child list; the two steps are composed here
(tagging leaves ids untouched, so the nesting order of the walks is
unchanged). -/
def flattenData (data : AppData) : FlatData :=
  { clients := data.clients.map fun c => { id := c.id, updated_at := c.updated_at, payload := c.payload }
    cases := data.clients.flatMap fun c => c.cases.map fun cs =>
      { id := cs.id, client_id := c.id, updated_at := cs.updated_at, payload := cs.payload }
    stages := data.clients.flatMap fun c => c.cases.flatMap fun cs => cs.stages.map fun st =>
      { id := st.id, case_id := cs.id, updated_at := st.updated_at, payload := st.payload }
    sessions := data.clients.flatMap fun c => c.cases.flatMap fun cs => cs.stages.flatMap fun st =>
      st.sessions.map fun s => { s with stage_id := some st.id }
    admin_tasks := data.adminTasks
    appointments := data.appointments
    accounting_entries := data.accountingEntries
    assistants := data.assistants.map fun name => { name := name, updated_at := none }
    invoices := data.invoices.map fun inv =>
      { id := inv.id, clientId := inv.clientId, client_id := inv.client_id,
        updated_at := inv.updated_at, payload := inv.payload }
    invoice_items := data.invoices.flatMap fun inv =>
      inv.items.map fun item => { item with invoice_id := some inv.id }
    case_documents := data.documents
    profiles := data.profiles
    site_finances := data.siteFinances }

/-! ## Reconstructor (`constructData`, useSync.ts lines 47–89) -/

/-- `sessionMap.get(st.id) || []`: the flat sessions grouped under one
stage id, in original order. -/
def sessionsFor (flatSessions : List Session) (stId : String) : List Session :=
  flatSessions.filter fun s => s.stage_id = some stId

/-- `stageMap.get(cs.id) || []`: each flat stage regains a `sessions` list
(`{ ...st, sessions: ... }` keeps the synthetic `case_id` key). -/
def stagesFor (flatStages : List FlatStage) (flatSessions : List Session)
    (caseId : String) : List Stage :=
  (flatStages.filter fun st => st.case_id = caseId).map fun st =>
    { id := st.id, case_id := some st.case_id, updated_at := st.updated_at,
      payload := st.payload, sessions := sessionsFor flatSessions st.id }

/-- `caseMap.get(c.id) || []`. -/
def casesFor (flatCases : List FlatCase) (flatStages : List FlatStage)
    (flatSessions : List Session) (clientId : String) : List Case :=
  (flatCases.filter fun cs => cs.client_id = clientId).map fun cs =>
    { id := cs.id, client_id := some cs.client_id, updated_at := cs.updated_at,
      payload := cs.payload, stages := stagesFor flatStages flatSessions cs.id }

/-- `invoiceItemMap.get(inv.id) || []`. -/
def itemsFor (flatItems : List InvoiceItem) (invId : String) : List InvoiceItem :=
  flatItems.filter fun item => item.invoice_id = some invId

/-- `constructData`: rebuilds the nested graph from flat tables by
id-indexed grouping. -/
def constructData (flatData : FlatData) : AppData :=
  { clients := flatData.clients.map fun c =>
      { id := c.id, updated_at := c.updated_at, payload := c.payload,
        cases := casesFor flatData.cases flatData.stages flatData.sessions c.id }
    adminTasks := flatData.admin_tasks
    appointments := flatData.appointments
    accountingEntries := flatData.accounting_entries
    assistants := flatData.assistants.map fun a => a.name
    invoices := flatData.invoices.map fun inv =>
      { id := inv.id, clientId := inv.clientId, client_id := inv.client_id,
        updated_at := inv.updated_at, payload := inv.payload,
        items := itemsFor flatData.invoice_items inv.id }
    documents := flatData.case_documents
    profiles := flatData.profiles
    siteFinances := flatData.site_finances }

/-! ## Foreign-key enrichment (what one flatten/construct round adds) -/

/-- A session after one round trip: its `stage_id` key is set to the
parent stage's id. -/
def enrichSession (stId : String) (s : Session) : Session :=
  { s with stage_id := some stId }

/-- A stage after one round trip. -/
def enrichStage (caseId : String) (st : Stage) : Stage :=
  { st with case_id := some caseId, sessions := st.sessions.map (enrichSession st.id) }

/-- A case after one round trip. -/
def enrichCase (clientId : String) (cs : Case) : Case :=
  { cs with client_id := some clientId, stages := cs.stages.map (enrichStage cs.id) }

/-- A client after one round trip. -/
def enrichClient (c : Client) : Client :=
  { c with cases := c.cases.map (enrichCase c.id) }

/-- An invoice after one round trip: each item gains `invoice_id`. -/
def enrichInvoice (inv : Invoice) : Invoice :=
  { inv with items := inv.items.map fun item => { item with invoice_id := some inv.id } }

/-- The whole graph after one flatten/construct round: every child record
gains its parent's foreign key; nothing else changes. -/
def enrichData (data : AppData) : AppData :=
  { data with clients := data.clients.map enrichClient,
              invoices := data.invoices.map enrichInvoice }

/-! ## Deletion log applier (`applyDeletionsToLocal`, useSync.ts lines 106–218) -/

/-- A remote tombstone (`SyncDeletion`); `deleted_at` is the parsed
timestamp in milliseconds. -/
structure SyncDeletion where
  id : Int
  table_name : String
  record_id : String
  user_id : String
  deleted_at : Int
  deriving DecidableEq, Repr

/-- The deletion lookup `deletionMap.get (table ++ ":" ++ id)`; the source
builds the map by `forEach`/`set`, so a later duplicate key overwrites an
earlier one (last write wins). -/
def lookupDeletion (deletions : List SyncDeletion) (key : String) : Option Int :=
  deletions.foldl
    (fun acc d => if d.table_name ++ ":" ++ d.record_id = key then some d.deleted_at else acc)
    none

/-- The clock-skew buffer added to a tombstone time before comparing it
with a record's `updated_at`. -/
def skewBufferMs : Int := 2000

/-- `filterItems` (useSync.ts lines 116–134): purge a record iff it has a
tombstone and its `updated_at` is not at least tombstone + 2000 ms. -/
def filterItems {α : Type} (getKey : α → String) (getUpd : α → Option Int)
    (dmap : String → Option Int) (tableName : String) (items : List α) : List α :=
  items.filter fun item =>
    match dmap (tableName ++ ":" ++ getKey item) with
    | some deletedAt => !(timeOf (getUpd item) < deletedAt + skewBufferMs)
    | none => true

/-- The per-document body of the `case_documents` special pass
(useSync.ts lines 172–192): a tombstoned document that still has its file
(`synced` or already local-only) is kept as `isLocalOnly = true`; any
other tombstoned document is dropped (`null`). -/
def docTombstoneStep (dmap : String → Option Int) (doc : CaseDocument) :
    Option CaseDocument :=
  match dmap ("case_documents:" ++ doc.id) with
  | some deletedAt =>
    if timeOf doc.updated_at < deletedAt + skewBufferMs then
      if doc.localState = DocState.synced ∨ doc.isLocalOnly then
        some { doc with isLocalOnly := true }
      else
        none
    else some doc
  | none => some doc

/-- The `case_documents` special pass before the parent-case cascade
(`.map(...).filter(doc => doc !== null)`). -/
def filterDocsPass (docs : List CaseDocument) (dmap : String → Option Int) :
    List CaseDocument :=
  docs.filterMap (docTombstoneStep dmap)

/-- `applyDeletionsToLocal` (useSync.ts lines 108–218): direct tombstone
filter per table, then parent-child cascade in dependency order.  Note the
invoice cascade reads the snake-case `client_id` key, exactly as the
source does. -/
def applyDeletionsToLocal (localFlatData : FlatData) (deletions : List SyncDeletion) :
    FlatData :=
  if deletions.isEmpty then localFlatData else
  let dmap := lookupDeletion deletions
  let filteredClients :=
    filterItems (fun c => c.id) (fun c => c.updated_at) dmap "clients" localFlatData.clients
  let clientIds := filteredClients.map (fun c => c.id)
  let filteredCases :=
    (filterItems (fun c => c.id) (fun c => c.updated_at) dmap "cases" localFlatData.cases).filter
      fun c => c.client_id ∈ clientIds
  let caseIds := filteredCases.map (fun c => c.id)
  let filteredStages :=
    (filterItems (fun s => s.id) (fun s => s.updated_at) dmap "stages" localFlatData.stages).filter
      fun s => s.case_id ∈ caseIds
  let stageIds := filteredStages.map (fun s => s.id)
  let filteredSessions :=
    (filterItems (fun s => s.id) (fun s => s.updated_at) dmap "sessions" localFlatData.sessions).filter
      fun s => match s.stage_id with
        | some k => k ∈ stageIds
        | none => false
  let filteredInvoices :=
    (filterItems (fun i => i.id) (fun i => i.updated_at) dmap "invoices" localFlatData.invoices).filter
      fun i => match i.client_id with
        | some k => k ∈ clientIds
        | none => false
  let invoiceIds := filteredInvoices.map (fun i => i.id)
  let filteredInvoiceItems :=
    (filterItems (fun i => i.id) (fun i => i.updated_at) dmap "invoice_items" localFlatData.invoice_items).filter
      fun i => match i.invoice_id with
        | some k => k ∈ invoiceIds
        | none => false
  let filteredDocs :=
    (filterDocsPass localFlatData.case_documents dmap).filter fun d => d.caseId ∈ caseIds
  let filteredEntries :=
    (filterItems (fun e => e.id) (fun e => e.updated_at) dmap "accounting_entries" localFlatData.accounting_entries).filter
      fun e => match e.clientId with
        | some k => k ∈ clientIds
        | none => true
  { localFlatData with
    clients := filteredClients
    cases := filteredCases
    stages := filteredStages
    sessions := filteredSessions
    invoices := filteredInvoices
    invoice_items := filteredInvoiceItems
    case_documents := filteredDocs
    accounting_entries := filteredEntries
    admin_tasks := filterItems (fun t => t.id) (fun t => t.updated_at) dmap "admin_tasks" localFlatData.admin_tasks
    appointments := filterItems (fun t => t.id) (fun t => t.updated_at) dmap "appointments" localFlatData.appointments
    assistants := filterItems (fun a => a.name) (fun a => a.updated_at) dmap "assistants" localFlatData.assistants
    site_finances := filterItems (fun t => t.id) (fun t => t.updated_at) dmap "site_finances" localFlatData.site_finances
    profiles := localFlatData.profiles }

/-! ## Merge engine (`manualSync` per-table loop, useSync.ts lines 271–337) -/

/-- The pending local deletion sets (`DeletedIds`). -/
structure DeletedIds where
  clients : List String
  cases : List String
  stages : List String
  sessions : List String
  adminTasks : List String
  appointments : List String
  accountingEntries : List String
  invoices : List String
  invoiceItems : List String
  assistants : List String
  documents : List String
  documentPaths : List String
  profiles : List String
  siteFinances : List String
  deriving DecidableEq, Repr

/-- `getInitialDeletedIds`. -/
def getInitialDeletedIds : DeletedIds :=
  { clients := [], cases := [], stages := [], sessions := [], adminTasks := [],
    appointments := [], accountingEntries := [], invoices := [], invoiceItems := [],
    assistants := [], documents := [], documentPaths := [], profiles := [], siteFinances := [] }

/-- `map.set k v` on a JS `Map` represented as an insertion-ordered
association list: an existing key keeps its position and takes the new
value; a new key is appended. -/
def setA {α : Type} (k : String) (v : α) : List (String × α) → List (String × α)
  | [] => [(k, v)]
  | (k0, v0) :: rest => if k0 = k then (k, v) :: rest else (k0, v0) :: setA k v rest

/-- `new Map(items.map(i => [key(i), i])).get k`: the last item with the
key wins. -/
def lookupLast {α : Type} (getKey : α → String) (items : List α) (k : String) : Option α :=
  items.foldl (fun acc item => if getKey item = k then some item else acc) none

/-- The two outputs of one table's merge: `merged` (kept locally) and
`upserts` (pushed remotely). -/
structure MergeOut (α : Type) where
  merged : List α
  upserts : List α
  deriving DecidableEq, Repr

/-- One step of the local-items loop (useSync.ts lines 290–323),
accumulating the `finalMergedItems` map and the `itemsToUpsert` array. -/
def mergeLocalStep {α : Type} (getKey : α → String) (getUpd : α → Option Int)
    (isParentDel : α → Bool) (special : α → Option α) (remoteItems : List α)
    (acc : List (String × α) × List α) (item : α) : List (String × α) × List α :=
  if isParentDel item then acc
  else
    match lookupLast getKey remoteItems (getKey item) with
    | some remoteItem =>
      if timeOf (getUpd item) > timeOf (getUpd remoteItem) then
        (setA (getKey item) item acc.1, acc.2 ++ [item])
      else (setA (getKey item) remoteItem acc.1, acc.2)
    | none =>
      match special item with
      | some localOnly => (setA (getKey item) localOnly acc.1, acc.2)
      | none => (setA (getKey item) item acc.1, acc.2 ++ [item])

/-- One step of the remote-items loop (useSync.ts lines 325–334): a
remote-only record enters the merge unless its key is pending deletion. -/
def mergeRemoteStep {α : Type} (getKey : α → String) (localIds : List String)
    (deletedSet : List String) (acc : List (String × α)) (item : α) :
    List (String × α) :=
  if getKey item ∈ localIds then acc
  else if getKey item ∈ deletedSet then acc
  else setA (getKey item) item acc

/-- The per-table merge.  `isParentDel` is the table's pending-parent
check; `special` is the `case_documents` vanished-remotely branch (the
constant `none` for every other table); `deletedSet` is the table's
pending-deletion id set used by the remote loop. -/
def mergeTable {α : Type} (getKey : α → String) (getUpd : α → Option Int)
    (isParentDel : α → Bool) (special : α → Option α) (deletedSet : List String)
    (localItems remoteItems : List α) : MergeOut α :=
  { merged :=
      (remoteItems.foldl (mergeRemoteStep getKey (localItems.map getKey) deletedSet)
        (localItems.foldl (mergeLocalStep getKey getUpd isParentDel special remoteItems)
          ([], [])).1).map Prod.snd
    upserts :=
      (localItems.foldl (mergeLocalStep getKey getUpd isParentDel special remoteItems)
        ([], [])).2 }

/-- The outcome of the merge loop over all 13 tables. -/
structure MergeAllOut where
  upserts : FlatData
  merged : FlatData
  deriving DecidableEq, Repr

/-- The merge for one of the tables whose local loop performs no parent
check and whose remote loop uses the table's own deletion set (clients,
admin_tasks, appointments, accounting_entries, invoices, profiles,
site_finances — and assistants, keyed by `name`). -/
def mergePlain {α : Type} (getKey : α → String) (getUpd : α → Option Int)
    (deletedSet : List String) (localItems remoteItems : List α) : MergeOut α :=
  mergeTable getKey getUpd (fun _ => false) (fun _ => none) deletedSet localItems remoteItems

/-- Merge of the `cases` table: a case whose `client_id` is pending
client deletion is silently dropped. -/
def mergeCases (d : DeletedIds) (localItems remoteItems : List FlatCase) : MergeOut FlatCase :=
  mergeTable (fun c => c.id) (fun c => c.updated_at)
    (fun c => c.client_id ∈ d.clients) (fun _ => none) d.cases localItems remoteItems

/-- Merge of the `stages` table. -/
def mergeStages (d : DeletedIds) (localItems remoteItems : List FlatStage) : MergeOut FlatStage :=
  mergeTable (fun s => s.id) (fun s => s.updated_at)
    (fun s => s.case_id ∈ d.cases) (fun _ => none) d.stages localItems remoteItems

/-- Merge of the `sessions` table (`deletedIdsSets.stages.has(undefined)`
is `false` when the synthetic key is absent). -/
def mergeSessions (d : DeletedIds) (localItems remoteItems : List Session) : MergeOut Session :=
  mergeTable (fun s => s.id) (fun s => s.updated_at)
    (fun s => match s.stage_id with
      | some k => k ∈ d.stages
      | none => false)
    (fun _ => none) d.sessions localItems remoteItems

/-- Merge of the `invoice_items` table. -/
def mergeInvoiceItems (d : DeletedIds) (localItems remoteItems : List InvoiceItem) :
    MergeOut InvoiceItem :=
  mergeTable (fun i => i.id) (fun i => i.updated_at)
    (fun i => match i.invoice_id with
      | some k => k ∈ d.invoices
      | none => false)
    (fun _ => none) d.invoiceItems localItems remoteItems

/-- The `case_documents` vanished-remotely branch (useSync.ts line 313):
a synced document absent remotely and not pending deletion becomes
local-only instead of being re-upserted. -/
def docSpecial (d : DeletedIds) (doc : CaseDocument) : Option CaseDocument :=
  if doc.localState = DocState.synced ∧ doc.id ∉ d.documents then
    some { doc with isLocalOnly := true }
  else none

/-- Merge of the `case_documents` table: parent check on `caseId`, the
vanished-remotely special case, deletion set `documents`. -/
def mergeCaseDocuments (d : DeletedIds) (localItems remoteItems : List CaseDocument) :
    MergeOut CaseDocument :=
  mergeTable (fun doc => doc.id) (fun doc => doc.updated_at)
    (fun doc => doc.caseId ∈ d.cases) (docSpecial d) d.documents localItems remoteItems

/-- The whole per-table merge loop, instantiated per table exactly as the
dynamic checks in the source resolve for that table key: parent checks for
`cases`/`stages`/`sessions`/`invoice_items`/`case_documents`, the
vanished-remotely special case only for `case_documents`, and the
`entityKey` translation picking each table's deletion set. -/
def mergeAll (localFlat remoteFlat : FlatData) (d : DeletedIds) : MergeAllOut :=
  let clients := mergePlain (fun c => c.id) (fun c => c.updated_at) d.clients
    localFlat.clients remoteFlat.clients
  let cases := mergeCases d localFlat.cases remoteFlat.cases
  let stages := mergeStages d localFlat.stages remoteFlat.stages
  let sessions := mergeSessions d localFlat.sessions remoteFlat.sessions
  let admin_tasks := mergePlain (fun t => t.id) (fun t => t.updated_at) d.adminTasks
    localFlat.admin_tasks remoteFlat.admin_tasks
  let appointments := mergePlain (fun t => t.id) (fun t => t.updated_at) d.appointments
    localFlat.appointments remoteFlat.appointments
  let accounting_entries := mergePlain (fun e => e.id) (fun e => e.updated_at) d.accountingEntries
    localFlat.accounting_entries remoteFlat.accounting_entries
  let assistants := mergePlain (fun a => a.name) (fun a => a.updated_at) d.assistants
    localFlat.assistants remoteFlat.assistants
  let invoices := mergePlain (fun i => i.id) (fun i => i.updated_at) d.invoices
    localFlat.invoices remoteFlat.invoices
  let invoice_items := mergeInvoiceItems d localFlat.invoice_items remoteFlat.invoice_items
  let case_documents := mergeCaseDocuments d localFlat.case_documents remoteFlat.case_documents
  let profiles := mergePlain (fun p => p.id) (fun p => p.updated_at) d.profiles
    localFlat.profiles remoteFlat.profiles
  let site_finances := mergePlain (fun t => t.id) (fun t => t.updated_at) d.siteFinances
    localFlat.site_finances remoteFlat.site_finances
  { upserts :=
    { clients := clients.upserts, cases := cases.upserts, stages := stages.upserts,
      sessions := sessions.upserts, admin_tasks := admin_tasks.upserts,
      appointments := appointments.upserts, accounting_entries := accounting_entries.upserts,
      assistants := assistants.upserts, invoices := invoices.upserts,
      invoice_items := invoice_items.upserts, case_documents := case_documents.upserts,
      profiles := profiles.upserts, site_finances := site_finances.upserts }
    merged :=
    { clients := clients.merged, cases := cases.merged, stages := stages.merged,
      sessions := sessions.merged, admin_tasks := admin_tasks.merged,
      appointments := appointments.merged, accounting_entries := accounting_entries.merged,
      assistants := assistants.merged, invoices := invoices.merged,
      invoice_items := invoice_items.merged, case_documents := case_documents.merged,
      profiles := profiles.merged, site_finances := site_finances.merged } }

/-! ## Orphan safety net (useSync.ts lines 339–375) -/

/-- The post-merge referential-integrity pass: re-derive valid parent id
sets as remote ids ∪ outgoing upsert ids, in dependency order, and filter
both outputs. -/
def safetyNet (remoteFlat : FlatData) (out : MergeAllOut) : MergeAllOut :=
  let flatUpserts := out.upserts
  let mergedFlatData := out.merged
  let validClientIds :=
    remoteFlat.clients.map (fun c => c.id) ++ flatUpserts.clients.map (fun c => c.id)
  let upsertCases := flatUpserts.cases.filter fun c => c.client_id ∈ validClientIds
  let validCaseIds :=
    remoteFlat.cases.map (fun c => c.id) ++ upsertCases.map (fun c => c.id)
  let upsertStages := flatUpserts.stages.filter fun s => s.case_id ∈ validCaseIds
  let validStageIds :=
    remoteFlat.stages.map (fun s => s.id) ++ upsertStages.map (fun s => s.id)
  let upsertSessions := flatUpserts.sessions.filter fun s =>
    match s.stage_id with
    | some k => k ∈ validStageIds
    | none => false
  { upserts :=
    { flatUpserts with
      cases := upsertCases
      stages := upsertStages
      sessions := upsertSessions
      case_documents := flatUpserts.case_documents.filter fun doc => doc.caseId ∈ validCaseIds }
    merged :=
    { mergedFlatData with
      cases := mergedFlatData.cases.filter fun c => c.client_id ∈ validClientIds
      stages := mergedFlatData.stages.filter fun s => s.case_id ∈ validCaseIds
      sessions := mergedFlatData.sessions.filter fun s =>
        match s.stage_id with
        | some k => k ∈ validStageIds
        | none => false
      case_documents := mergedFlatData.case_documents.filter fun doc => doc.caseId ∈ validCaseIds } }

/-! ## Sync orchestrator (`manualSync`, useSync.ts lines 227–436) -/

/-- `isLocalEffectivelyEmpty` (useSync.ts line 260): the six primary
collections checked by the fast path. -/
def isLocalEffectivelyEmpty (f : FlatData) : Bool :=
  f.clients.isEmpty && f.admin_tasks.isEmpty && f.appointments.isEmpty &&
    f.accounting_entries.isEmpty && f.invoices.isEmpty && f.case_documents.isEmpty

/-- `hasPendingDeletions` (useSync.ts line 261): any of the 14 deletion
arrays non-empty. -/
def hasPendingDeletions (d : DeletedIds) : Bool :=
  !(d.clients.isEmpty && d.cases.isEmpty && d.stages.isEmpty && d.sessions.isEmpty &&
    d.adminTasks.isEmpty && d.appointments.isEmpty && d.accountingEntries.isEmpty &&
    d.invoices.isEmpty && d.invoiceItems.isEmpty && d.assistants.isEmpty &&
    d.documents.isEmpty && d.documentPaths.isEmpty && d.profiles.isEmpty &&
    d.siteFinances.isEmpty)

/-- `isRemoteEffectivelyEmpty` (useSync.ts line 262): every remote table
empty (`transformRemoteToLocal` is per-row, so per-table emptiness of the
raw snapshot and of the transformed one coincide). -/
def isRemoteEffectivelyEmpty (f : FlatData) : Bool :=
  f.clients.isEmpty && f.cases.isEmpty && f.stages.isEmpty && f.sessions.isEmpty &&
    f.admin_tasks.isEmpty && f.appointments.isEmpty && f.accounting_entries.isEmpty &&
    f.assistants.isEmpty && f.invoices.isEmpty && f.invoice_items.isEmpty &&
    f.case_documents.isEmpty && f.profiles.isEmpty && f.site_finances.isEmpty

/-- What a sync round decides to do: the fast path adopts the remote
snapshot and returns before any upsert or remote delete is issued; the
full path carries the upserts to push, the merged snapshot to keep, and
the pending deletions to send as remote deletes. -/
inductive SyncPlan where
  | fast (adopted : AppData)
  | full (upserts merged : FlatData) (deletes : DeletedIds)
  deriving DecidableEq, Repr

/-- The records a plan hands to the remote upsert stage (`none`: the
stage is never reached). -/
def SyncPlan.upsertsOf : SyncPlan → Option FlatData
  | .fast _ => none
  | .full u _ _ => some u

/-- The deletions a plan hands to the remote delete stage (`none`: the
stage is never reached). -/
def SyncPlan.deletesOf : SyncPlan → Option DeletedIds
  | .fast _ => none
  | .full _ _ d => some d

/-- The pure core of `manualSync`: flatten local data, apply the remote
deletion log, then either take the first-login fast path (useSync.ts
lines 264–269) or run the per-table merge and the orphan safety net. -/
def manualSyncPlan (localData : AppData) (deletions : List SyncDeletion)
    (remoteFlat : FlatData) (d : DeletedIds) : SyncPlan :=
  let localFlat := applyDeletionsToLocal (flattenData localData) deletions
  if isLocalEffectivelyEmpty localFlat && !isRemoteEffectivelyEmpty remoteFlat &&
      !hasPendingDeletions d then
    .fast (constructData remoteFlat)
  else
    let out := safetyNet remoteFlat (mergeAll localFlat remoteFlat d)
    .full out.upserts out.merged d

/-! ## Remote push stage (`upsertDataToSupabase`, useOnlineData.ts lines 357–366) -/

/-- `documentsToUpsert` (useOnlineData.ts line 366): local-only documents
are filtered out before the `case_documents` rows are built and handed to
the remote upsert. -/
def documentsToUpsert (docs : List CaseDocument) : List CaseDocument :=
  docs.filter fun doc => !doc.isLocalOnly

/-! ## Concrete fixtures used by witnesses and counterexamples -/

/-- The empty flat snapshot. -/
def emptyFlat : FlatData :=
  { clients := [], cases := [], stages := [], sessions := [], admin_tasks := [],
    appointments := [], accounting_entries := [], assistants := [], invoices := [],
    invoice_items := [], case_documents := [], profiles := [], site_finances := [] }

/-- The empty nested graph. -/
def emptyApp : AppData :=
  { clients := [], adminTasks := [], appointments := [], accountingEntries := [],
    invoices := [], assistants := [], documents := [], profiles := [], siteFinances := [] }

/-! ## Generic list lemmas about the embedded operations -/

/-- Auxiliary: the fold behind `lookupLast` only ever holds a record
carrying the queried key. -/
theorem lookupLast_fold_key {α : Type} (getKey : α → String) (k : String) :
    ∀ (items : List α) (a : Option α), (∀ y, a = some y → getKey y = k) →
      ∀ r, items.foldl (fun acc item => if getKey item = k then some item else acc) a = some r →
        getKey r = k := by
  intro items
  induction items with
  | nil => intro a ha r hr; exact ha r hr
  | cons z zs ih =>
    intro a ha r hr
    simp only [List.foldl_cons] at hr
    by_cases hz : getKey z = k
    · rw [if_pos hz] at hr
      exact ih _ (fun y hy => by cases hy; exact hz) r hr
    · rw [if_neg hz] at hr
      exact ih _ ha r hr

/-- `lookupLast` only returns a record carrying the queried key. -/
theorem lookupLast_key {α : Type} (getKey : α → String) (items : List α) (k : String)
    (r : α) (h : lookupLast getKey items k = some r) : getKey r = k := by
  unfold lookupLast at h
  exact lookupLast_fold_key getKey k items none (by intro y hy; cases hy) r h

/-- `lookupLast` misses when no record carries the queried key. -/
theorem lookupLast_eq_none {α : Type} (getKey : α → String) (items : List α) (k : String)
    (h : ∀ i ∈ items, getKey i ≠ k) : lookupLast getKey items k = none := by
  induction items with
  | nil => rfl
  | cons z zs ih =>
    have hz : ¬ getKey z = k := h z (List.mem_cons_self z zs)
    have ih2 := ih fun i hi => h i (List.mem_cons_of_mem z hi)
    simp only [lookupLast, List.foldl_cons] at ih2 ⊢
    rw [if_neg hz]
    exact ih2

/-- Membership in `setA k v l`: every entry is an old entry or the new
pair. -/
theorem setA_subset {α : Type} (k : String) (v : α) (l : List (String × α))
    (p : String × α) (h : p ∈ setA k v l) : p ∈ l ∨ p = (k, v) := by
  induction l with
  | nil => simpa [setA] using h
  | cons q l ih =>
    by_cases hq : q.1 = k
    · rcases q with ⟨k0, v0⟩
      simp only [setA, if_pos hq] at h
      rcases List.mem_cons.mp h with h | h
      · exact Or.inr h
      · exact Or.inl (List.mem_cons_of_mem _ h)
    · rcases q with ⟨k0, v0⟩
      simp only [setA, if_neg hq] at h
      rcases List.mem_cons.mp h with h | h
      · exact Or.inl (by simp [h])
      · rcases ih h with h | h
        · exact Or.inl (List.mem_cons_of_mem _ h)
        · exact Or.inr h

/-- The pair just written is in the updated association list. -/
theorem setA_mem_self {α : Type} (k : String) (v : α) (l : List (String × α)) :
    (k, v) ∈ setA k v l := by
  induction l with
  | nil => simp [setA]
  | cons q l ih =>
    rcases q with ⟨k0, v0⟩
    by_cases hq : k0 = k
    · simp [setA, hq]
    · simp only [setA, if_neg hq]
      exact List.mem_cons_of_mem _ ih

/-- Writing a different key preserves an existing entry. -/
theorem setA_mem_of_ne {α : Type} (k : String) (v : α) (l : List (String × α))
    (p : String × α) (hp : p ∈ l) (hne : p.1 ≠ k) : p ∈ setA k v l := by
  induction l with
  | nil => cases hp
  | cons q l ih =>
    rcases q with ⟨k0, v0⟩
    by_cases hq : k0 = k
    · simp only [setA, if_pos hq]
      rcases List.mem_cons.mp hp with h | h
      · exact absurd (by rw [h] at hne ⊢; exact hq) hne
      · exact List.mem_cons_of_mem _ h
    · simp only [setA, if_neg hq]
      rcases List.mem_cons.mp hp with h | h
      · exact h ▸ List.mem_cons_self _ _
      · exact List.mem_cons_of_mem _ (ih h)

/-! ## Claim C1 — invoice cascade in the deletion applier -/

/-- Fixture: a client that survives the deletion filter. -/
def bugClient : FlatClient := { id := "c1", updated_at := some 0, payload := "p" }

/-- Fixture: an invoice owned by `c1` through its `clientId` field, with no
snake-case `client_id` key — the shape every locally created invoice has. -/
def bugInvoice : FlatInvoice :=
  { id := "i1", clientId := "c1", client_id := none, updated_at := some 0, payload := "p" }

/-- Fixture: a local snapshot holding that client and invoice. -/
def bugLocal : FlatData := { emptyFlat with clients := [bugClient], invoices := [bugInvoice] }

/-- Fixture: a deletion log with a single tombstone for an unrelated
client id. -/
def bugDels : List SyncDeletion :=
  [{ id := 1, table_name := "clients", record_id := "zz", user_id := "u", deleted_at := 1000 }]

/-- C1: the deletion applier evaluated at the failing input.  The invoice
`i1` has no tombstone and its owning client `c1` survives the client
filter, yet the cascade `filter(i => clientIds.has(i.client_id))` reads the
snake-case `client_id` key, which local invoices never carry, so the
invoice is removed from the output invoices table. -/
theorem claim1_invoice_cascade_failing_input :
    (applyDeletionsToLocal bugLocal bugDels).clients = [bugClient] ∧
    (applyDeletionsToLocal bugLocal bugDels).invoices = [] := by
  constructor <;> rfl

/-! ## Claim C3 — tombstone precedence in `filterItems` -/

/-- C3 (amended): for every record with a tombstone at `tdel`, if its
`updated_at` is strictly below `tdel + 2000` ms it is absent from the
filtered output, and if its `updated_at` is at least `tdel + 2000` ms it
survives.  (The claim as stated places the boundary `updated_at = tdel +
2000` on the purged side; the source comparison `updatedAt < deletedAt +
2000` keeps it.) -/
theorem claim3_tombstone_precedence {α : Type} (getKey : α → String)
    (getUpd : α → Option Int) (dmap : String → Option Int) (tableName : String)
    (items : List α) (r : α) (hmem : r ∈ items) (tdel : Int)
    (hd : dmap (tableName ++ ":" ++ getKey r) = some tdel) :
    (timeOf (getUpd r) < tdel + skewBufferMs →
      r ∉ filterItems getKey getUpd dmap tableName items) ∧
    (tdel + skewBufferMs ≤ timeOf (getUpd r) →
      r ∈ filterItems getKey getUpd dmap tableName items) := by
  constructor
  · intro hlt hmemF
    have h2 := (List.mem_filter.mp hmemF).2
    simp only [hd] at h2
    simp [hlt] at h2
  · intro hge
    refine List.mem_filter.mpr ⟨hmem, ?_⟩
    simp only [hd]
    simp [not_lt.mpr hge]

/-- Fixture: a record purged by a tombstone 1000 ms after epoch. -/
def purgedClient : FlatClient := { id := "c1", updated_at := some 0, payload := "p" }

/-- Fixture: the tombstone list for `purgedClient`. -/
def purgedDels : List SyncDeletion :=
  [{ id := 1, table_name := "clients", record_id := "c1", user_id := "u", deleted_at := 1000 }]

/-- C3 witness: the purge direction at a concrete input. -/
theorem claim3_witness :
    purgedClient ∉ filterItems (fun c : FlatClient => c.id) (fun c => c.updated_at)
      (lookupDeletion purgedDels) "clients" [purgedClient] :=
  (claim3_tombstone_precedence (fun c : FlatClient => c.id) (fun c => c.updated_at)
    (lookupDeletion purgedDels) "clients" [purgedClient] purgedClient (by decide)
    1000 (by decide)).1 (by decide)

/-- Fixture: a record whose `updated_at` is exactly tombstone + 2000 ms. -/
def boundaryClient : FlatClient := { id := "c1", updated_at := some 3000, payload := "p" }

/-- C3 counterexample: the claim places `updated_at = t_del + 2000` on the
absent side, but the source comparison is strict, so this record survives
the filter. -/
theorem claim3_counterexample :
    timeOf boundaryClient.updated_at = 1000 + skewBufferMs ∧
    boundaryClient ∈ filterItems (fun c : FlatClient => c.id) (fun c => c.updated_at)
      (lookupDeletion purgedDels) "clients" [boundaryClient] := by
  constructor
  · rfl
  · decide

/-! ## Claim C9 — local-only documents are never pushed -/

/-- C9: every document handed to the remote `case_documents` upsert has
`isLocalOnly = false`; a local-only document never reaches the push. -/
theorem claim9_local_only_never_pushed (docs : List CaseDocument) (doc : CaseDocument)
    (h : doc ∈ documentsToUpsert docs) : doc.isLocalOnly = false := by
  have h2 := (List.mem_filter.mp h).2
  simpa using h2

/-- Fixture: a synced, not-local-only document. -/
def pushableDoc : CaseDocument :=
  { id := "d1", caseId := "k1", localState := DocState.synced, isLocalOnly := false,
    updated_at := some 0, payload := "p" }

/-- C9 witness: the push filter evaluated at a concrete input. -/
theorem claim9_witness :
    pushableDoc ∈ documentsToUpsert [pushableDoc] ∧ pushableDoc.isLocalOnly = false :=
  ⟨by decide, claim9_local_only_never_pushed [pushableDoc] pushableDoc (by decide)⟩

/-! ## Claim C10 — document residency on tombstone -/

/-- `docTombstoneStep` never changes a document's id. -/
theorem docTombstoneStep_id (dmap : String → Option Int) (a d2 : CaseDocument)
    (h : docTombstoneStep dmap a = some d2) : d2.id = a.id := by
  unfold docTombstoneStep at h
  split at h
  · split at h
    · split at h
      · cases h; rfl
      · cases h
    · cases h; rfl
  · cases h; rfl

/-- C10 (amended): a case_documents record with a tombstone whose
`updated_at` strictly predates the tombstone plus the 2000 ms buffer is
kept — converted to `isLocalOnly = true` — exactly when its `localState`
is `synced` or its `isLocalOnly` flag is already set; in every other local
state (pending_upload, pending_download, downloading, error) it is dropped
entirely (stated for snapshots with pairwise distinct document ids). -/
theorem claim10_doc_tombstone_residency (docs : List CaseDocument)
    (dmap : String → Option Int) (doc : CaseDocument) (hmem : doc ∈ docs)
    (hnodup : (docs.map (fun d => d.id)).Nodup) (tdel : Int)
    (hd : dmap ("case_documents:" ++ doc.id) = some tdel)
    (hlt : timeOf doc.updated_at < tdel + skewBufferMs) :
    ((doc.localState = DocState.synced ∨ doc.isLocalOnly = true) →
      { doc with isLocalOnly := true } ∈ filterDocsPass docs dmap) ∧
    ((doc.localState ≠ DocState.synced ∧ doc.isLocalOnly = false) →
      ∀ d2 ∈ filterDocsPass docs dmap, d2.id ≠ doc.id) := by
  constructor
  · intro hcond
    refine List.mem_filterMap.mpr ⟨doc, hmem, ?_⟩
    unfold docTombstoneStep
    simp only [hd]
    rw [if_pos hlt, if_pos hcond]
  · rintro ⟨hs, hl⟩ d2 hd2 heq
    rcases List.mem_filterMap.mp hd2 with ⟨a, ha, hstep⟩
    have hid : a.id = doc.id := (docTombstoneStep_id dmap a d2 hstep) ▸ heq
    have haeq : a = doc := List.inj_on_of_nodup_map hnodup ha hmem hid
    subst haeq
    unfold docTombstoneStep at hstep
    simp only [hd] at hstep
    rw [if_pos hlt, if_neg (by simp [hs, hl])] at hstep
    cases hstep

/-- Fixture: a tombstoned, never-downloaded-state document at the exact
`t_del + 2000` boundary. -/
def boundaryDoc : CaseDocument :=
  { id := "d1", caseId := "k1", localState := DocState.pending_upload, isLocalOnly := false,
    updated_at := some 3000, payload := "p" }

/-- Fixture: the tombstone list for `boundaryDoc`. -/
def boundaryDocDels : List SyncDeletion :=
  [{ id := 1, table_name := "case_documents", record_id := "d1", user_id := "u",
     deleted_at := 1000 }]

/-- C10 counterexample: this pending_upload document's `updated_at` equals
tombstone + 2000 ms (so it does not postdate the tombstone plus the
buffer), and the claim says it is dropped entirely — yet the source's
strict comparison passes it through unchanged. -/
theorem claim10_counterexample :
    timeOf boundaryDoc.updated_at = 1000 + skewBufferMs ∧
    boundaryDoc.localState = DocState.pending_upload ∧
    filterDocsPass [boundaryDoc] (lookupDeletion boundaryDocDels) = [boundaryDoc] := by
  refine ⟨rfl, rfl, ?_⟩
  decide

/-- Fixture: a tombstoned synced document. -/
def syncedDoc : CaseDocument :=
  { id := "d2", caseId := "k1", localState := DocState.synced, isLocalOnly := false,
    updated_at := some 0, payload := "p" }

/-- Fixture: the tombstone list for `syncedDoc`. -/
def syncedDocDels : List SyncDeletion :=
  [{ id := 1, table_name := "case_documents", record_id := "d2", user_id := "u",
     deleted_at := 1000 }]

/-- C10 witness: the conversion direction at a concrete input. -/
theorem claim10_witness :
    { syncedDoc with isLocalOnly := true } ∈
      filterDocsPass [syncedDoc] (lookupDeletion syncedDocDels) :=
  (claim10_doc_tombstone_residency [syncedDoc] (lookupDeletion syncedDocDels) syncedDoc
    (by decide) (by decide) 1000 (by decide) (by decide)).1 (Or.inl rfl)

/-! ## Claim C6 — last-write-wins determinism -/

/-- C6: when a local record `a` and a remote record `b` share the same
key, the merged output keeps `a` exactly when `a.updated_at` is strictly
newer than `b.updated_at` (missing timestamps are epoch 0, remote wins
ties), and `a` is queued for upsert exactly in that case. -/
theorem claim6_lww {α : Type} (getKey : α → String) (getUpd : α → Option Int)
    (deletedSet : List String) (a b : α) (h : getKey a = getKey b) :
    (mergePlain getKey getUpd deletedSet [a] [b]).merged
        = [if timeOf (getUpd a) > timeOf (getUpd b) then a else b] ∧
    (mergePlain getKey getUpd deletedSet [a] [b]).upserts
        = if timeOf (getUpd a) > timeOf (getUpd b) then [a] else [] := by
  by_cases hgt : timeOf (getUpd a) > timeOf (getUpd b) <;>
    simp [mergePlain, mergeTable, mergeLocalStep, mergeRemoteStep, lookupLast, setA, h, hgt]

/-- Fixture: the newer local version of record `x`. -/
def newerLocal : FlatClient := { id := "x", updated_at := some 5, payload := "local" }

/-- Fixture: the older remote version of record `x`. -/
def olderRemote : FlatClient := { id := "x", updated_at := some 3, payload := "remote" }

/-- C6 witness: the last-write-wins merge at a concrete conflicting pair. -/
theorem claim6_witness :
    (mergePlain (fun c : FlatClient => c.id) (fun c => c.updated_at) [] [newerLocal]
        [olderRemote]).merged
      = [if timeOf newerLocal.updated_at > timeOf olderRemote.updated_at then newerLocal
         else olderRemote] ∧
    (mergePlain (fun c : FlatClient => c.id) (fun c => c.updated_at) [] [newerLocal]
        [olderRemote]).upserts
      = if timeOf newerLocal.updated_at > timeOf olderRemote.updated_at then [newerLocal]
        else [] :=
  claim6_lww (fun c : FlatClient => c.id) (fun c => c.updated_at) [] newerLocal olderRemote rfl

/-! ## Claim C4 — no resurrection of pending-deletion records -/

/-- Membership in the map after one local step: an old entry, or an entry
whose value carries the processed item's key. -/
theorem mergeLocalStep_mem_map {α : Type} (getKey : α → String) (getUpd : α → Option Int)
    (isParentDel : α → Bool) (special : α → Option α) (remoteItems : List α)
    (acc : List (String × α) × List α) (item : α)
    (hspec : ∀ y, special item = some y → getKey y = getKey item) (p : String × α)
    (hp : p ∈ (mergeLocalStep getKey getUpd isParentDel special remoteItems acc item).1) :
    p ∈ acc.1 ∨ getKey p.2 = getKey item := by
  unfold mergeLocalStep at hp
  split at hp
  · exact Or.inl hp
  · split at hp
    · rename_i r hr
      have hrk := lookupLast_key getKey remoteItems (getKey item) r hr
      split at hp
      · rcases setA_subset _ _ _ _ hp with h | h
        · exact Or.inl h
        · exact Or.inr (by rw [h])
      · rcases setA_subset _ _ _ _ hp with h | h
        · exact Or.inl h
        · exact Or.inr (by rw [h]; exact hrk)
    · split at hp
      · rename_i y hy
        rcases setA_subset _ _ _ _ hp with h | h
        · exact Or.inl h
        · exact Or.inr (by rw [h]; exact hspec y hy)
      · rcases setA_subset _ _ _ _ hp with h | h
        · exact Or.inl h
        · exact Or.inr (by rw [h])

/-- Membership in the upserts after one local step: an old upsert or the
processed item itself. -/
theorem mergeLocalStep_mem_upserts {α : Type} (getKey : α → String) (getUpd : α → Option Int)
    (isParentDel : α → Bool) (special : α → Option α) (remoteItems : List α)
    (acc : List (String × α) × List α) (item : α) (u : α)
    (hu : u ∈ (mergeLocalStep getKey getUpd isParentDel special remoteItems acc item).2) :
    u ∈ acc.2 ∨ u = item := by
  unfold mergeLocalStep at hu
  split at hu
  · exact Or.inl hu
  · split at hu
    · split at hu
      · rcases List.mem_append.mp hu with h | h
        · exact Or.inl h
        · exact Or.inr (List.mem_singleton.mp h)
      · exact Or.inl hu
    · split at hu
      · exact Or.inl hu
      · rcases List.mem_append.mp hu with h | h
        · exact Or.inl h
        · exact Or.inr (List.mem_singleton.mp h)

/-- Membership in the map after one remote step: an old entry, or an entry
whose key is not pending deletion. -/
theorem mergeRemoteStep_mem {α : Type} (getKey : α → String) (localIds : List String)
    (deletedSet : List String) (acc : List (String × α)) (item : α) (p : String × α)
    (hp : p ∈ mergeRemoteStep getKey localIds deletedSet acc item) :
    p ∈ acc ∨ (getKey p.2 = getKey item ∧ getKey item ∉ deletedSet) := by
  unfold mergeRemoteStep at hp
  split at hp
  · exact Or.inl hp
  · split at hp
    · exact Or.inl hp
    · rename_i hdel
      rcases setA_subset _ _ _ _ hp with h | h
      · exact Or.inl h
      · exact Or.inr ⟨by rw [h], hdel⟩

/-- The local loop never produces a map entry or an upsert whose key is
absent from the local input. -/
theorem mergeLocal_fold_avoid {α : Type} (getKey : α → String) (getUpd : α → Option Int)
    (isParentDel : α → Bool) (special : α → Option α) (remoteItems : List α) (x : String)
    (hspec : ∀ i y, special i = some y → getKey y = getKey i) :
    ∀ (items : List α), (∀ i ∈ items, getKey i ≠ x) →
      ∀ (acc : List (String × α) × List α), (∀ p ∈ acc.1, getKey p.2 ≠ x) →
        (∀ u ∈ acc.2, getKey u ≠ x) →
        (∀ p ∈ (items.foldl (mergeLocalStep getKey getUpd isParentDel special remoteItems) acc).1,
            getKey p.2 ≠ x) ∧
        (∀ u ∈ (items.foldl (mergeLocalStep getKey getUpd isParentDel special remoteItems) acc).2,
            getKey u ≠ x) := by
  intro items
  induction items with
  | nil => intro _ acc hm hu; exact ⟨hm, hu⟩
  | cons i is ih =>
    intro hitems acc hm hu
    have hi : getKey i ≠ x := hitems i (List.mem_cons_self i is)
    have his : ∀ j ∈ is, getKey j ≠ x := fun j hj => hitems j (List.mem_cons_of_mem i hj)
    rw [List.foldl_cons]
    refine ih his _ ?_ ?_
    · intro p hp
      rcases mergeLocalStep_mem_map getKey getUpd isParentDel special remoteItems acc i
          (fun y hy => hspec i y hy) p hp with h | h
      · exact hm p h
      · rw [h]; exact hi
    · intro u hu2
      rcases mergeLocalStep_mem_upserts getKey getUpd isParentDel special remoteItems acc i
          u hu2 with h | h
      · exact hu u h
      · rw [h]; exact hi

/-- The remote loop never adds a map entry whose key is pending
deletion. -/
theorem mergeRemote_fold_avoid {α : Type} (getKey : α → String) (localIds : List String)
    (deletedSet : List String) (x : String) (hx : x ∈ deletedSet) :
    ∀ (items : List α) (acc : List (String × α)), (∀ p ∈ acc, getKey p.2 ≠ x) →
      ∀ p ∈ items.foldl (mergeRemoteStep getKey localIds deletedSet) acc, getKey p.2 ≠ x := by
  intro items
  induction items with
  | nil => intro acc hm; exact hm
  | cons i is ih =>
    intro acc hm
    rw [List.foldl_cons]
    refine ih _ ?_
    intro p hp
    rcases mergeRemoteStep_mem getKey localIds deletedSet acc i p hp with h | ⟨hk, hdel⟩
    · exact hm p h
    · rw [hk]
      intro hkey
      exact hdel (hkey ▸ hx)

/-- C4 (amended): a record whose key is in the table's pending
local-deletion set and which is absent from the table's local input never
appears in the merged output nor in the upserts output, regardless of what
the remote input contains.  (A pending-deletion record still present in
the local input is merged and re-pushed by the local loop, which performs
no own-key deletion check — see the counterexample.) -/
theorem claim4_no_resurrection {α : Type} (getKey : α → String) (getUpd : α → Option Int)
    (isParentDel : α → Bool) (special : α → Option α) (deletedSet : List String)
    (localItems remoteItems : List α)
    (hspec : ∀ i y, special i = some y → getKey y = getKey i)
    (x : String) (hx : x ∈ deletedSet) (hnl : ∀ i ∈ localItems, getKey i ≠ x) :
    (∀ v ∈ (mergeTable getKey getUpd isParentDel special deletedSet localItems
        remoteItems).merged, getKey v ≠ x) ∧
    (∀ u ∈ (mergeTable getKey getUpd isParentDel special deletedSet localItems
        remoteItems).upserts, getKey u ≠ x) := by
  have hlocal := mergeLocal_fold_avoid getKey getUpd isParentDel special remoteItems x hspec
    localItems hnl ([], []) (by intro p hp; cases hp) (by intro u hu; cases hu)
  have hremote := mergeRemote_fold_avoid getKey (localItems.map getKey) deletedSet x hx
    remoteItems _ hlocal.1
  constructor
  · intro v hv
    rcases List.mem_map.mp hv with ⟨p, hp, hpv⟩
    exact hpv ▸ hremote p hp
  · exact hlocal.2

/-- Fixture: a record whose id is pending local deletion but which is
still present in the local snapshot. -/
def zombieClient : FlatClient := { id := "c1", updated_at := some 0, payload := "p" }

/-- Fixture: the deletion sets with `c1` pending client deletion. -/
def zombieDeleted : DeletedIds := { getInitialDeletedIds with clients := ["c1"] }

/-- Fixture: a local snapshot still containing the pending-deletion
record. -/
def zombieLocal : FlatData := { emptyFlat with clients := [zombieClient] }

/-- C4 counterexample: a record whose id is in the pending client-deletion
set but which is present in the local input appears in both the merged
output and the upserts output of the merge loop. -/
theorem claim4_counterexample :
    "c1" ∈ zombieDeleted.clients ∧
    (mergeAll zombieLocal emptyFlat zombieDeleted).merged.clients = [zombieClient] ∧
    (mergeAll zombieLocal emptyFlat zombieDeleted).upserts.clients = [zombieClient] := by
  refine ⟨by decide, ?_, ?_⟩ <;> rfl

/-- Fixture: a remote copy of the pending-deletion record `c1`. -/
def zombieRemote : FlatClient := { id := "c1", updated_at := some 9, payload := "remote" }

/-- C4 witness: with `c1` absent from the local input, the merge drops the
remote copy of the pending-deletion record from both outputs. -/
theorem claim4_witness :
    (∀ v ∈ (mergeTable (fun c : FlatClient => c.id) (fun c => c.updated_at) (fun _ => false)
        (fun _ => none) ["c1"] [] [zombieRemote]).merged, v.id ≠ "c1") ∧
    (∀ u ∈ (mergeTable (fun c : FlatClient => c.id) (fun c => c.updated_at) (fun _ => false)
        (fun _ => none) ["c1"] [] [zombieRemote]).upserts, u.id ≠ "c1") :=
  claim4_no_resurrection (fun c : FlatClient => c.id) (fun c => c.updated_at) (fun _ => false)
    (fun _ => none) ["c1"] [] [zombieRemote]
    (by intro i y hy; cases hy) "c1" (by decide) (by intro i hi; cases hi)

/-! ## Claim C7 — vanished-remotely documents become local-only -/

/-- A local step whose item has a different key preserves an existing map
entry. -/
theorem mergeLocalStep_preserves_entry {α : Type} (getKey : α → String)
    (getUpd : α → Option Int) (isParentDel : α → Bool) (special : α → Option α)
    (remoteItems : List α) (acc : List (String × α) × List α) (item : α)
    (p : String × α) (hp : p ∈ acc.1) (hne : p.1 ≠ getKey item) :
    p ∈ (mergeLocalStep getKey getUpd isParentDel special remoteItems acc item).1 := by
  unfold mergeLocalStep
  split
  · exact hp
  · split
    · split
      · exact setA_mem_of_ne _ _ _ p hp hne
      · exact setA_mem_of_ne _ _ _ p hp hne
    · split
      · exact setA_mem_of_ne _ _ _ p hp hne
      · exact setA_mem_of_ne _ _ _ p hp hne

/-- The rest of the local loop preserves an entry whose key matches no
remaining item, and adds no upsert with that key. -/
theorem mergeLocal_fold_persist {α : Type} (getKey : α → String) (getUpd : α → Option Int)
    (isParentDel : α → Bool) (special : α → Option α) (remoteItems : List α)
    (K : String) (v : α) :
    ∀ (items : List α), (∀ i ∈ items, getKey i ≠ K) →
      ∀ (acc : List (String × α) × List α), (K, v) ∈ acc.1 → (∀ u ∈ acc.2, getKey u ≠ K) →
        ((K, v) ∈ (items.foldl (mergeLocalStep getKey getUpd isParentDel special remoteItems)
            acc).1) ∧
        (∀ u ∈ (items.foldl (mergeLocalStep getKey getUpd isParentDel special remoteItems)
            acc).2, getKey u ≠ K) := by
  intro items
  induction items with
  | nil => intro _ acc hm hu; exact ⟨hm, hu⟩
  | cons i is ih =>
    intro hitems acc hm hu
    have hi : getKey i ≠ K := hitems i (List.mem_cons_self i is)
    have his : ∀ j ∈ is, getKey j ≠ K := fun j hj => hitems j (List.mem_cons_of_mem i hj)
    rw [List.foldl_cons]
    refine ih his _ ?_ ?_
    · exact mergeLocalStep_preserves_entry getKey getUpd isParentDel special remoteItems acc i
        (K, v) hm (Ne.symm hi)
    · intro u hu2
      rcases mergeLocalStep_mem_upserts getKey getUpd isParentDel special remoteItems acc i
          u hu2 with h | h
      · exact hu u h
      · rw [h]; exact hi

/-- The remote loop preserves an entry whose key belongs to a local
record: it only ever writes keys absent from the local id set. -/
theorem mergeRemote_fold_persist {α : Type} (getKey : α → String) (localIds : List String)
    (deletedSet : List String) (K : String) (hK : K ∈ localIds) (v : α) :
    ∀ (items : List α) (acc : List (String × α)), (K, v) ∈ acc →
      (K, v) ∈ items.foldl (mergeRemoteStep getKey localIds deletedSet) acc := by
  intro items
  induction items with
  | nil => intro acc hm; exact hm
  | cons i is ih =>
    intro acc hm
    rw [List.foldl_cons]
    refine ih _ ?_
    unfold mergeRemoteStep
    split
    · exact hm
    · rename_i hloc
      split
      · exact hm
      · exact setA_mem_of_ne _ _ _ (K, v) hm (fun hKi => hloc (hKi ▸ hK))

/-- `docSpecial` never changes a document's id. -/
theorem docSpecial_id (d : DeletedIds) (i y : CaseDocument)
    (h : docSpecial d i = some y) : y.id = i.id := by
  unfold docSpecial at h
  split at h
  · cases h; rfl
  · cases h

/-- C7 (amended): a case_documents record present locally with
`localState = synced`, absent from the remote set, whose id is not in the
pending document-deletion set **and whose `caseId` is not in the pending
case-deletion set** is kept in the merged output converted to
`isLocalOnly = true` and is not included in the upserts output (stated for
local inputs with pairwise distinct document ids; a record whose parent
case is pending deletion is silently dropped by the merge loop's parent
check instead — see the counterexample). -/
theorem claim7_vanished_doc (d : DeletedIds) (localItems remoteItems : List CaseDocument)
    (doc : CaseDocument) (hmem : doc ∈ localItems)
    (hnodup : (localItems.map (fun x => x.id)).Nodup)
    (hstate : doc.localState = DocState.synced)
    (habs : ∀ r ∈ remoteItems, r.id ≠ doc.id)
    (hdel : doc.id ∉ d.documents) (hcase : doc.caseId ∉ d.cases) :
    { doc with isLocalOnly := true } ∈ (mergeCaseDocuments d localItems remoteItems).merged ∧
    ∀ u ∈ (mergeCaseDocuments d localItems remoteItems).upserts, u.id ≠ doc.id := by
  obtain ⟨l1, l2, rfl⟩ := List.append_of_mem hmem
  rw [List.map_append, List.map_cons] at hnodup
  obtain ⟨hnd1, hnd2, hdisj⟩ := List.nodup_append.mp hnodup
  have hdoc_l2 : doc.id ∉ l2.map (fun x => x.id) := (List.nodup_cons.mp hnd2).1
  have hdoc_l1 : doc.id ∉ l1.map (fun x => x.id) :=
    fun hmem1 => hdisj hmem1 (List.mem_cons_self _ _)
  have h1ne : ∀ i ∈ l1, i.id ≠ doc.id := by
    intro i hi heq
    exact hdoc_l1 (heq ▸ List.mem_map_of_mem _ hi)
  have h2ne : ∀ i ∈ l2, i.id ≠ doc.id := by
    intro i hi heq
    exact hdoc_l2 (heq ▸ List.mem_map_of_mem _ hi)
  have hlook : lookupLast (fun x : CaseDocument => x.id) remoteItems doc.id = none :=
    lookupLast_eq_none _ remoteItems doc.id habs
  have hspec : docSpecial d doc = some { doc with isLocalOnly := true } := by
    unfold docSpecial
    rw [if_pos ⟨hstate, hdel⟩]
  -- the accumulator after the items preceding `doc`
  have havoid := mergeLocal_fold_avoid (fun x : CaseDocument => x.id)
    (fun x => x.updated_at) (fun x => x.caseId ∈ d.cases) (docSpecial d) remoteItems doc.id
    (fun i y hy => docSpecial_id d i y hy) l1 h1ne ([], [])
    (by intro p hp; cases hp) (by intro u hu; cases hu)
  -- the step that processes `doc` itself
  have hstep : ∀ (acc : List (String × CaseDocument) × List CaseDocument),
      mergeLocalStep (fun x : CaseDocument => x.id) (fun x => x.updated_at)
        (fun x => x.caseId ∈ d.cases) (docSpecial d) remoteItems acc doc
        = (setA doc.id { doc with isLocalOnly := true } acc.1, acc.2) := by
    intro acc
    unfold mergeLocalStep
    rw [if_neg (by simp [hcase])]
    simp only [hlook, hspec]
  have hpersist := mergeLocal_fold_persist (fun x : CaseDocument => x.id)
    (fun x => x.updated_at) (fun x => x.caseId ∈ d.cases) (docSpecial d) remoteItems
    doc.id { doc with isLocalOnly := true } l2 h2ne
    (setA doc.id { doc with isLocalOnly := true }
        (List.foldl (mergeLocalStep (fun x : CaseDocument => x.id) (fun x => x.updated_at)
          (fun x => x.caseId ∈ d.cases) (docSpecial d) remoteItems) ([], []) l1).1,
      (List.foldl (mergeLocalStep (fun x : CaseDocument => x.id) (fun x => x.updated_at)
          (fun x => x.caseId ∈ d.cases) (docSpecial d) remoteItems) ([], []) l1).2)
    (setA_mem_self _ _ _) havoid.2
  have hKloc : doc.id ∈ (l1 ++ doc :: l2).map (fun x : CaseDocument => x.id) :=
    List.mem_map_of_mem _ hmem
  constructor
  · simp only [mergeCaseDocuments, mergeTable]
    refine List.mem_map.mpr ⟨(doc.id, { doc with isLocalOnly := true }), ?_, rfl⟩
    refine mergeRemote_fold_persist (fun x : CaseDocument => x.id) _ d.documents doc.id
      hKloc _ remoteItems _ ?_
    rw [List.foldl_append, List.foldl_cons, hstep]
    exact hpersist.1
  · intro u hu
    simp only [mergeCaseDocuments, mergeTable] at hu
    rw [List.foldl_append, List.foldl_cons, hstep] at hu
    exact hpersist.2 u hu

/-- Fixture: a synced document whose parent case is pending deletion. -/
def orphanIntentDoc : CaseDocument :=
  { id := "d1", caseId := "k1", localState := DocState.synced, isLocalOnly := false,
    updated_at := some 0, payload := "p" }

/-- Fixture: deletion sets with the parent case `k1` pending deletion. -/
def orphanIntentDeleted : DeletedIds := { getInitialDeletedIds with cases := ["k1"] }

/-- C7 counterexample: this document satisfies every condition of the
claim — present locally, `localState = synced`, absent remotely, id not in
the pending document-deletion set — yet it is not kept in the merged
output (nor upserted): the merge loop's parent check drops it because its
`caseId` is pending case deletion. -/
theorem claim7_counterexample :
    orphanIntentDoc.localState = DocState.synced ∧
    orphanIntentDoc.id ∉ orphanIntentDeleted.documents ∧
    (mergeCaseDocuments orphanIntentDeleted [orphanIntentDoc] []).merged = [] ∧
    (mergeCaseDocuments orphanIntentDeleted [orphanIntentDoc] []).upserts = [] := by
  refine ⟨rfl, by decide, rfl, rfl⟩

/-- Fixture: a synced document that vanished from the remote set with no
local deletion intent. -/
def vanishedDoc : CaseDocument :=
  { id := "d9", caseId := "k9", localState := DocState.synced, isLocalOnly := false,
    updated_at := some 0, payload := "p" }

/-- C7 witness: the vanished-remotely conversion at a concrete input. -/
theorem claim7_witness :
    { vanishedDoc with isLocalOnly := true } ∈
        (mergeCaseDocuments getInitialDeletedIds [vanishedDoc] []).merged ∧
    ∀ u ∈ (mergeCaseDocuments getInitialDeletedIds [vanishedDoc] []).upserts,
        u.id ≠ vanishedDoc.id :=
  claim7_vanished_doc getInitialDeletedIds [vanishedDoc] [] vanishedDoc (by decide)
    (by decide) rfl (by intro r hr; cases hr) (by decide) (by decide)

/-! ## Claim C8 — first-login fast path -/

/-- C8: when the local snapshot after applying remote deletions is
effectively empty, the remote snapshot is non-empty, and there are no
pending local deletions, the sync plan adopts the remote snapshot
wholesale and reaches neither the remote-delete nor the upsert stage. -/
theorem claim8_fast_path (localData : AppData) (deletions : List SyncDeletion)
    (remoteFlat : FlatData) (d : DeletedIds)
    (h1 : isLocalEffectivelyEmpty (applyDeletionsToLocal (flattenData localData) deletions)
        = true)
    (h2 : isRemoteEffectivelyEmpty remoteFlat = false)
    (h3 : hasPendingDeletions d = false) :
    manualSyncPlan localData deletions remoteFlat d
        = SyncPlan.fast (constructData remoteFlat) ∧
    (manualSyncPlan localData deletions remoteFlat d).upsertsOf = none ∧
    (manualSyncPlan localData deletions remoteFlat d).deletesOf = none := by
  have hplan : manualSyncPlan localData deletions remoteFlat d
      = SyncPlan.fast (constructData remoteFlat) := by
    unfold manualSyncPlan
    simp [h1, h2, h3]
  refine ⟨hplan, ?_, ?_⟩ <;> rw [hplan] <;> rfl

/-- Fixture: a non-empty remote snapshot (one client). -/
def bootstrapRemote : FlatData :=
  { emptyFlat with clients := [{ id := "r1", updated_at := some 1, payload := "p" }] }

/-- C8 witness: the fast path taken at a concrete first-login input. -/
theorem claim8_witness :
    manualSyncPlan emptyApp [] bootstrapRemote getInitialDeletedIds
        = SyncPlan.fast (constructData bootstrapRemote) ∧
    (manualSyncPlan emptyApp [] bootstrapRemote getInitialDeletedIds).upsertsOf = none ∧
    (manualSyncPlan emptyApp [] bootstrapRemote getInitialDeletedIds).deletesOf = none :=
  claim8_fast_path emptyApp [] bootstrapRemote getInitialDeletedIds
    (by decide) (by decide) (by decide)

/-! ## Claim C5 — orphan-free output of the safety net -/

/-- The orphan-free property over the four tables the safety net filters:
every kept or pushed record's parent id lies in the union of the remote
ids and the final upsert ids of the parent table. -/
def orphanFreeAfter (remoteFlat : FlatData) (out : MergeAllOut) : Prop :=
  (∀ c ∈ out.merged.cases,
      c.client_id ∈ remoteFlat.clients.map (fun x => x.id)
        ++ out.upserts.clients.map (fun x => x.id)) ∧
  (∀ c ∈ out.upserts.cases,
      c.client_id ∈ remoteFlat.clients.map (fun x => x.id)
        ++ out.upserts.clients.map (fun x => x.id)) ∧
  (∀ st ∈ out.merged.stages,
      st.case_id ∈ remoteFlat.cases.map (fun x => x.id)
        ++ out.upserts.cases.map (fun x => x.id)) ∧
  (∀ st ∈ out.upserts.stages,
      st.case_id ∈ remoteFlat.cases.map (fun x => x.id)
        ++ out.upserts.cases.map (fun x => x.id)) ∧
  (∀ sn ∈ out.merged.sessions, ∃ k, sn.stage_id = some k ∧
      k ∈ remoteFlat.stages.map (fun x => x.id) ++ out.upserts.stages.map (fun x => x.id)) ∧
  (∀ sn ∈ out.upserts.sessions, ∃ k, sn.stage_id = some k ∧
      k ∈ remoteFlat.stages.map (fun x => x.id) ++ out.upserts.stages.map (fun x => x.id)) ∧
  (∀ doc ∈ out.merged.case_documents,
      doc.caseId ∈ remoteFlat.cases.map (fun x => x.id)
        ++ out.upserts.cases.map (fun x => x.id)) ∧
  (∀ doc ∈ out.upserts.case_documents,
      doc.caseId ∈ remoteFlat.cases.map (fun x => x.id)
        ++ out.upserts.cases.map (fun x => x.id))

/-- C5 (amended): after the orphan safety net runs, for the tables it
covers — cases, stages, sessions and case_documents, but **not**
invoice_items, which the net never filters — every record in both the
merged output and the upserts output has its parent id in the union of the
remote ids and the final upsert ids of the parent table. -/
theorem claim5_orphan_free (remoteFlat : FlatData) (out0 : MergeAllOut) :
    orphanFreeAfter remoteFlat (safetyNet remoteFlat out0) := by
  unfold orphanFreeAfter safetyNet
  refine ⟨?_, ?_, ?_, ?_, ?_, ?_, ?_, ?_⟩ <;> intro x hx
  · simpa using (List.mem_filter.mp hx).2
  · simpa using (List.mem_filter.mp hx).2
  · simpa using (List.mem_filter.mp hx).2
  · simpa using (List.mem_filter.mp hx).2
  · have h2 := (List.mem_filter.mp hx).2
    rcases h : x.stage_id with _ | k
    · rw [h] at h2; cases h2
    · refine ⟨k, rfl, ?_⟩
      rw [h] at h2
      simpa using h2
  · have h2 := (List.mem_filter.mp hx).2
    rcases h : x.stage_id with _ | k
    · rw [h] at h2; cases h2
    · refine ⟨k, rfl, ?_⟩
      rw [h] at h2
      simpa using h2
  · simpa using (List.mem_filter.mp hx).2
  · simpa using (List.mem_filter.mp hx).2

/-- Fixture: an invoice item whose parent invoice exists nowhere. -/
def orphanItem : InvoiceItem :=
  { id := "it1", invoice_id := some "inv1", updated_at := some 0, payload := "p" }

/-- Fixture: a local snapshot holding only that invoice item. -/
def orphanItemLocal : FlatData := { emptyFlat with invoice_items := [orphanItem] }

/-- Fixture: the engine output (merge + safety net) for that snapshot
against an empty remote. -/
def orphanItemOut : MergeAllOut :=
  safetyNet emptyFlat (mergeAll orphanItemLocal emptyFlat getInitialDeletedIds)

/-- C5 counterexample: after the safety net, both the merged output and
the upserts output still contain an invoice_items record whose parent
invoice id is in neither the remote invoice ids nor the upsert invoice
ids — the net never filters invoice_items, so the claim as stated (which
includes invoice_items among the covered tables) is false. -/
theorem claim5_counterexample :
    orphanItemOut.merged.invoice_items = [orphanItem] ∧
    orphanItemOut.upserts.invoice_items = [orphanItem] ∧
    orphanItem.invoice_id = some "inv1" ∧
    "inv1" ∉ (emptyFlat.invoices.map (fun x => x.id)
        ++ orphanItemOut.upserts.invoices.map (fun x => x.id)) := by
  refine ⟨rfl, rfl, rfl, by decide⟩

/-! ## Claim C2 — the flatten/construct round trip -/

/-- Grouping a tagged flatMap by one parent's key recovers exactly that
parent's children (in order), provided parent keys are distinct. -/
theorem flatMap_tag_filter {α β δ γ : Type} [DecidableEq γ] (xs : List α) (g : α → γ)
    (ch : α → List β) (tag : α → β → δ) (keyf : δ → γ)
    (htag : ∀ a b, keyf (tag a b) = g a) :
    ∀ a ∈ xs, (xs.map g).Nodup →
      ((xs.flatMap fun x => (ch x).map (tag x)).filter fun b => keyf b = g a)
        = (ch a).map (tag a) := by
  induction xs with
  | nil => intro a ha; cases ha
  | cons x xs ih =>
    intro a ha hnd
    rw [List.map_cons, List.nodup_cons] at hnd
    rw [List.flatMap_cons, List.filter_append]
    rcases List.mem_cons.mp ha with rfl | ha2
    · have h1 : List.filter (fun b => decide (keyf b = g a)) ((ch a).map (tag a))
          = (ch a).map (tag a) := by
        apply List.filter_eq_self.mpr
        intro b hb
        rcases List.mem_map.mp hb with ⟨b0, _, rfl⟩
        simp [htag]
      have h2 : List.filter (fun b => decide (keyf b = g a))
          (xs.flatMap fun x => (ch x).map (tag x)) = [] := by
        apply List.filter_eq_nil_iff.mpr
        intro b hb
        rcases List.mem_flatMap.mp hb with ⟨x1, hx1, hb1⟩
        rcases List.mem_map.mp hb1 with ⟨b0, _, rfl⟩
        have hne : g x1 ≠ g a := fun he => hnd.1 (he ▸ List.mem_map_of_mem g hx1)
        simp [htag, hne]
      rw [h1, h2, List.append_nil]
    · have hne : g x ≠ g a := fun he => hnd.1 (he ▸ List.mem_map_of_mem g ha2)
      have h1 : List.filter (fun b => decide (keyf b = g a)) ((ch x).map (tag x)) = [] := by
        apply List.filter_eq_nil_iff.mpr
        intro b hb
        rcases List.mem_map.mp hb with ⟨b0, _, rfl⟩
        simp [htag, hne]
      rw [h1, List.nil_append]
      exact ih a ha2 hnd.2

/-- Filtering the flattened cases by one client's id recovers that
client's cases, tagged with the foreign key. -/
theorem flatten_cases_filter (data : AppData) (c : Client) (hc : c ∈ data.clients)
    (hnd : (data.clients.map fun c => c.id).Nodup) :
    ((flattenData data).cases.filter fun cs => cs.client_id = c.id)
      = c.cases.map (fun cs =>
          ({ id := cs.id, client_id := c.id, updated_at := cs.updated_at,
             payload := cs.payload } : FlatCase)) :=
  flatMap_tag_filter data.clients (fun c => c.id) (fun c => c.cases)
    (fun c cs =>
      ({ id := cs.id, client_id := c.id, updated_at := cs.updated_at,
         payload := cs.payload } : FlatCase))
    (fun fc => fc.client_id) (fun _ _ => rfl) c hc hnd

/-- Filtering the flattened stages by one case's id recovers that case's
stages, tagged with the foreign key. -/
theorem flatten_stages_filter (data : AppData) (cs : Case)
    (hcs : cs ∈ data.clients.flatMap fun c => c.cases)
    (hnd : ((data.clients.flatMap fun c => c.cases).map fun cs => cs.id).Nodup) :
    ((flattenData data).stages.filter fun st => st.case_id = cs.id)
      = cs.stages.map (fun st =>
          ({ id := st.id, case_id := cs.id, updated_at := st.updated_at,
             payload := st.payload } : FlatStage)) := by
  have hassoc : (flattenData data).stages
      = (data.clients.flatMap fun c => c.cases).flatMap
          (fun cs => cs.stages.map fun st =>
            ({ id := st.id, case_id := cs.id, updated_at := st.updated_at,
               payload := st.payload } : FlatStage)) := by
    simp only [flattenData]
    rw [List.flatMap_assoc]
  rw [hassoc]
  exact flatMap_tag_filter (data.clients.flatMap fun c => c.cases)
    (fun cs => cs.id) (fun cs => cs.stages)
    (fun cs st =>
      ({ id := st.id, case_id := cs.id, updated_at := st.updated_at,
         payload := st.payload } : FlatStage))
    (fun fs => fs.case_id) (fun _ _ => rfl) cs hcs hnd

/-- Filtering the flattened sessions by one stage's id recovers that
stage's sessions, tagged with the foreign key. -/
theorem flatten_sessions_filter (data : AppData) (st : Stage)
    (hst : st ∈ (data.clients.flatMap fun c => c.cases).flatMap fun cs => cs.stages)
    (hnd : (((data.clients.flatMap fun c => c.cases).flatMap fun cs => cs.stages).map
        fun st => st.id).Nodup) :
    ((flattenData data).sessions.filter fun s => s.stage_id = some st.id)
      = st.sessions.map (fun s => { s with stage_id := some st.id }) := by
  have hassoc : (flattenData data).sessions
      = ((data.clients.flatMap fun c => c.cases).flatMap fun cs => cs.stages).flatMap
          (fun st => st.sessions.map fun s => { s with stage_id := some st.id }) := by
    simp only [flattenData]
    rw [List.flatMap_assoc, List.flatMap_assoc]
  rw [hassoc]
  have hnd2 : ((((data.clients.flatMap fun c => c.cases).flatMap fun cs => cs.stages).map
      fun st => some st.id) : List (Option String)).Nodup := by
    simpa [List.map_map, Function.comp] using
      List.Nodup.map (Option.some_injective String) hnd
  exact flatMap_tag_filter ((data.clients.flatMap fun c => c.cases).flatMap fun cs => cs.stages)
    (fun st => some st.id) (fun st => st.sessions)
    (fun st s => { s with stage_id := some st.id }) (fun s => s.stage_id)
    (fun _ _ => rfl) st hst hnd2

/-- Filtering the flattened invoice items by one invoice's id recovers
that invoice's items, tagged with the foreign key. -/
theorem flatten_items_filter (data : AppData) (inv : Invoice) (hinv : inv ∈ data.invoices)
    (hnd : (data.invoices.map fun i => i.id).Nodup) :
    ((flattenData data).invoice_items.filter fun it => it.invoice_id = some inv.id)
      = inv.items.map (fun it => { it with invoice_id := some inv.id }) := by
  have hnd2 : ((data.invoices.map fun i => some i.id) : List (Option String)).Nodup := by
    simpa [List.map_map, Function.comp] using
      List.Nodup.map (Option.some_injective String) hnd
  exact flatMap_tag_filter data.invoices (fun i => some i.id) (fun i => i.items)
    (fun i it => { it with invoice_id := some i.id }) (fun it => it.invoice_id)
    (fun _ _ => rfl) inv hinv hnd2

/-- Reconstructing one stage's sessions from the flattened snapshot
recovers the original sessions, enriched with the foreign key. -/
theorem sessionsFor_flatten (data : AppData) (st : Stage)
    (hst : st ∈ (data.clients.flatMap fun c => c.cases).flatMap fun cs => cs.stages)
    (h3 : (((data.clients.flatMap fun c => c.cases).flatMap fun cs => cs.stages).map
        fun st => st.id).Nodup) :
    sessionsFor (flattenData data).sessions st.id
      = st.sessions.map (enrichSession st.id) := by
  unfold sessionsFor
  rw [flatten_sessions_filter data st hst h3]
  rfl

/-- Reconstructing one case's stages from the flattened snapshot recovers
the original stages, enriched with foreign keys. -/
theorem stagesFor_flatten (data : AppData) (cs : Case)
    (hcs : cs ∈ data.clients.flatMap fun c => c.cases)
    (h2 : ((data.clients.flatMap fun c => c.cases).map fun cs => cs.id).Nodup)
    (h3 : (((data.clients.flatMap fun c => c.cases).flatMap fun cs => cs.stages).map
        fun st => st.id).Nodup) :
    stagesFor (flattenData data).stages (flattenData data).sessions cs.id
      = cs.stages.map (enrichStage cs.id) := by
  unfold stagesFor
  rw [flatten_stages_filter data cs hcs h2, List.map_map]
  apply List.map_congr_left
  intro st hst
  show Stage.mk st.id (some cs.id) st.updated_at st.payload
      (sessionsFor (flattenData data).sessions st.id)
    = enrichStage cs.id st
  unfold enrichStage
  exact congrArg _ (sessionsFor_flatten data st
    (List.mem_flatMap.mpr ⟨cs, hcs, hst⟩) h3)

/-- Reconstructing one client's cases from the flattened snapshot recovers
the original cases, enriched with foreign keys. -/
theorem casesFor_flatten (data : AppData) (c : Client) (hc : c ∈ data.clients)
    (h1 : (data.clients.map fun c => c.id).Nodup)
    (h2 : ((data.clients.flatMap fun c => c.cases).map fun cs => cs.id).Nodup)
    (h3 : (((data.clients.flatMap fun c => c.cases).flatMap fun cs => cs.stages).map
        fun st => st.id).Nodup) :
    casesFor (flattenData data).cases (flattenData data).stages (flattenData data).sessions c.id
      = c.cases.map (enrichCase c.id) := by
  unfold casesFor
  rw [flatten_cases_filter data c hc h1, List.map_map]
  apply List.map_congr_left
  intro cs hcs
  show Case.mk cs.id (some c.id) cs.updated_at cs.payload
      (stagesFor (flattenData data).stages (flattenData data).sessions cs.id)
    = enrichCase c.id cs
  unfold enrichCase
  exact congrArg _ (stagesFor_flatten data cs
    (List.mem_flatMap.mpr ⟨c, hc, hcs⟩) h2 h3)

/-- Reconstructing one invoice's items from the flattened snapshot
recovers the original items, enriched with the foreign key. -/
theorem itemsFor_flatten (data : AppData) (inv : Invoice) (hinv : inv ∈ data.invoices)
    (h4 : (data.invoices.map fun i => i.id).Nodup) :
    itemsFor (flattenData data).invoice_items inv.id
      = inv.items.map (fun it => { it with invoice_id := some inv.id }) := by
  unfold itemsFor
  exact flatten_items_filter data inv hinv h4

/-- C2 (amended): for every nested graph whose client / case / stage /
invoice ids are pairwise distinct (per table, across the whole graph),
`constructData (flattenData G)` equals `G` with every child record
enriched by its parent's foreign-key field (`client_id` on cases,
`case_id` on stages, `stage_id` on sessions, `invoice_id` on items) —
identity on every other field and on every other table.  In particular the
round trip is deep-equal to `G` itself exactly when those foreign-key
fields are already present, as they are for any graph previously produced
by `constructData`; for a fresh graph without them the round trip is not
deep-equal to `G` (see the counterexample). -/
theorem claim2_roundtrip (data : AppData)
    (h1 : (data.clients.map fun c => c.id).Nodup)
    (h2 : ((data.clients.flatMap fun c => c.cases).map fun cs => cs.id).Nodup)
    (h3 : (((data.clients.flatMap fun c => c.cases).flatMap fun cs => cs.stages).map
        fun st => st.id).Nodup)
    (h4 : (data.invoices.map fun i => i.id).Nodup) :
    constructData (flattenData data) = enrichData data := by
  unfold constructData enrichData
  simp only [AppData.mk.injEq]
  refine ⟨?_, rfl, rfl, rfl, ?_, ?_, rfl, rfl, rfl⟩
  · show ((data.clients.map fun c =>
        ({ id := c.id, updated_at := c.updated_at, payload := c.payload } : FlatClient)).map
          fun fc => Client.mk fc.id fc.updated_at fc.payload
            (casesFor (flattenData data).cases (flattenData data).stages
              (flattenData data).sessions fc.id))
      = data.clients.map enrichClient
    rw [List.map_map]
    apply List.map_congr_left
    intro c hc
    show Client.mk c.id c.updated_at c.payload
        (casesFor (flattenData data).cases (flattenData data).stages
          (flattenData data).sessions c.id)
      = enrichClient c
    unfold enrichClient
    exact congrArg _ (casesFor_flatten data c hc h1 h2 h3)
  · show ((data.invoices.map fun inv =>
        ({ id := inv.id, clientId := inv.clientId, client_id := inv.client_id,
           updated_at := inv.updated_at, payload := inv.payload } : FlatInvoice)).map
          fun fi => Invoice.mk fi.id fi.clientId fi.client_id fi.updated_at fi.payload
            (itemsFor (flattenData data).invoice_items fi.id))
      = data.invoices.map enrichInvoice
    rw [List.map_map]
    apply List.map_congr_left
    intro inv hinv
    show Invoice.mk inv.id inv.clientId inv.client_id inv.updated_at inv.payload
        (itemsFor (flattenData data).invoice_items inv.id)
      = enrichInvoice inv
    unfold enrichInvoice
    exact congrArg _ (itemsFor_flatten data inv hinv h4)
  · show (data.assistants.map fun name =>
        ({ name := name, updated_at := none } : Assistant)).map (fun a => a.name)
      = data.assistants
    rw [List.map_map]
    exact List.map_id data.assistants

/-- Fixture: a fresh nested graph whose case does not yet carry the
synthetic `client_id` key. -/
def freshApp : AppData :=
  { emptyApp with clients :=
      [{ id := "c1", updated_at := some 0, payload := "p",
         cases := [{ id := "k1", client_id := none, updated_at := some 0, payload := "q",
                     stages := [] }] }] }

/-- C2 counterexample: the round trip is not deep-equal to the input for a
structurally valid graph whose children lack the synthetic foreign-key
fields — `constructData` rebuilds the case with `client_id` present
(`{ ...cs, client_id }` spread through the flat row), an extra key the
original object does not have. -/
theorem claim2_counterexample : constructData (flattenData freshApp) ≠ freshApp := by
  decide

/-- Fixture: a two-level-enriched graph with one client, case, stage,
session, invoice and item, all foreign-key fields present. -/
def steadyApp : AppData :=
  { emptyApp with
    clients :=
      [{ id := "c1", updated_at := some 1, payload := "pc",
         cases :=
          [{ id := "k1", client_id := some "c1", updated_at := some 2, payload := "pk",
             stages :=
              [{ id := "st1", case_id := some "k1", updated_at := some 3, payload := "pt",
                 sessions :=
                  [{ id := "s1", stage_id := some "st1", updated_at := some 4,
                     payload := "ps" }] }] }] }]
    invoices :=
      [{ id := "inv1", clientId := "c1", client_id := none, updated_at := some 6,
         payload := "pv",
         items :=
          [{ id := "li1", invoice_id := some "inv1", updated_at := some 5,
             payload := "pi" }] }] }

/-- C2 witness: the amended round trip at a concrete graph. -/
theorem claim2_witness : constructData (flattenData steadyApp) = enrichData steadyApp :=
  claim2_roundtrip steadyApp (by decide) (by decide) (by decide) (by decide)

end Sync
